/-
Verification of the streaming upload pipeline of `file-uploads-and-hapi`
(the `src/upload-stream.ts` variant with `route.options.payload.parse = false`).

The development shallowly embeds:
  * the Joi validation schema `partsSchema` (field names, filename extension
    regex, part count) translated from the source;
  * the upload route handler (collect parts from the Pez dispenser, validate,
    forward each part to the downstream sink, aggregate the response)
    translated from the source;
  * the Pez multipart dispenser, which is an external library whose source is
    not part of this repository; it is modelled from the specification's
    Part Dispenser contract (boundary splitting, ordered part emission, the
    three malformation failure modes);
  * the framework-level pieces (hapi's `allow: 'multipart/form-data'` gate,
    the error-status mapping, ECMAScript `Promise.all` settlement), likewise
    modelled from the specification and the repository's tests.

Bodies are modelled as lists of characters, downstream forwarding as a
function from parts to `Except`, and promise settlement times as natural
numbers where claim C5 needs them.
-/
import Mathlib

deriving instance DecidableEq for Except

namespace UploadStream

/-- A parsed multipart part, as exposed by the Pez dispenser to the handler:
the `@hapi/content` `ContentDisposition` fields (`name`, `filename`) plus the
part's body bytes. -/
structure ContentDisposition where
  name : String
  filename : String
  content : List Char
  deriving Repr, DecidableEq

/-- The `\.(gif|jpe?g|png)$` regular expression from `partsSchema`: the
filename must end with one of the four literal (lower-case) extensions.  The
regex has no `i` flag, so matching is case-sensitive. -/
def extensionOk (filename : String) : Bool :=
  [".gif", ".jpg", ".jpeg", ".png"].any
    (fun ext => ext.data.isSuffixOf filename.data)

/-- `Joi.string().regex(/\.(gif|jpe?g|png)$/).required()`: the filename must
be a present, non-empty string matching the extension regex. -/
def itemFilenameOk (filename : String) : Bool :=
  filename != "" && extensionOk filename

/-- `Joi.any().valid('background', 'profile').required()`: the part's field
name must be one of the two literals. -/
def itemNameOk (name : String) : Bool :=
  name == "background" || name == "profile"

/-- One item of `partsSchema`'s `Joi.object({filename, name}).unknown(true)`. -/
def partItemOk (p : ContentDisposition) : Bool :=
  itemFilenameOk p.filename && itemNameOk p.name

/-- `partsSchema`: a Joi array of part items with `.min(2).max(2)`. -/
def partsValid (parts : List ContentDisposition) : Bool :=
  parts.length == 2 && parts.all partItemOk

/-- Upper-case hexadecimal digit, as produced by `encodeURIComponent`. -/
def hexDigit (n : Nat) : Char :=
  Char.ofNat (if n < 10 then 48 + n else 55 + n)

/-- UTF-8 encoding of one character's code point, as a list of byte values. -/
def utf8Encode (c : Char) : List Nat :=
  let n := c.toNat
  if n < 128 then [n]
  else if n < 2048 then [192 + n / 64, 128 + n % 64]
  else if n < 65536 then [224 + n / 4096, 128 + n / 64 % 64, 128 + n % 64]
  else [240 + n / 262144, 128 + n / 4096 % 64, 128 + n / 64 % 64, 128 + n % 64]

/-- `%XX` percent-escape of one byte. -/
def percentByte (b : Nat) : List Char :=
  ['%', hexDigit (b / 16), hexDigit (b % 16)]

/-- The characters `encodeURIComponent` leaves unescaped:
`A-Z a-z 0-9 - _ . ! ~ * ' ( )`. -/
def isUnreservedURIChar (c : Char) : Bool :=
  (65 ≤ c.toNat && c.toNat ≤ 90) || (97 ≤ c.toNat && c.toNat ≤ 122) ||
  (48 ≤ c.toNat && c.toNat ≤ 57) ||
  c == '-' || c == '_' || c == '.' || c == '!' || c == '~' || c == '*' ||
  c.toNat == 39 || c == '(' || c == ')'

/-- ECMAScript `encodeURIComponent`: unreserved characters pass through, every
other character is UTF-8 encoded and percent-escaped byte by byte. -/
def encodeURIComponent (s : String) : String :=
  ⟨(s.data.map (fun c =>
      if isUnreservedURIChar c then [c]
      else (utf8Encode c).map percentByte |>.flatten)).flatten⟩

/-- One downstream forwarding call issued by the handler:
`Wreck.request('POST', 'http://localhost:3001/files/' + encodeURIComponent(filename), ...)`. -/
structure ForwardCall where
  method : String
  url : String
  deriving Repr, DecidableEq

/-- The forwarding call the handler builds for one part's filename. -/
def forwardCall (filename : String) : ForwardCall :=
  ⟨"POST", "http://localhost:3001/files/" ++ encodeURIComponent filename⟩

/-- Modelled from the spec: the Part Dispenser's failure taxonomy
(`MalformedMultipartError`): no boundary delimiter supplied, body terminated
before a final boundary, or part header lines that cannot be decoded.  The
Pez dispenser's source is not part of this repository. -/
inductive MalformedMultipartError where
  | missingBoundary
  | incompletePayload
  | invalidHeader
  deriving Repr, DecidableEq

/-- Whether a fallible computation succeeded (a promise fulfilled rather than
rejected). -/
def exceptOk : Except ε α → Bool
  | .ok _ => true
  | .error _ => false

/-- The HTTP response the pipeline produces: a status code and, on success
only, the `uploaded` filename list of the JSON body. -/
structure UploadResponse where
  status : Nat
  uploaded : Option (List String)
  deriving Repr, DecidableEq

/-- The observable outcome of one request: the response together with the
list of downstream forwarding calls issued while producing it. -/
structure PipelineOutcome where
  response : UploadResponse
  calls : List ForwardCall
  deriving Repr, DecidableEq

/-- The upload route handler, given the settled result of the part-collection
promise and the downstream sink's per-part outcome.  Translated from the
source handler: a dispenser error rejects the collection promise and the
thrown `MalformedMultipartError` is answered as a 400 (spec §7); a
`Joi.assert` failure is re-thrown as a Boom 400 before any forwarding; on
valid parts one forwarding call per part is issued, and the handler responds
201 with the filenames in part order, or fails the whole request as a 500
(spec §7 `ForwardingError`) when any forwarding call fails. -/
def uploadHandler (sink : ContentDisposition → Except String Unit)
    (collected : Except MalformedMultipartError (List ContentDisposition)) :
    PipelineOutcome :=
  match collected with
  | .error _ => ⟨⟨400, none⟩, []⟩
  | .ok parts =>
    if partsValid parts then
      let calls := parts.map (fun p => forwardCall p.filename)
      if parts.all (fun p => exceptOk (sink p)) then
        ⟨⟨201, some (parts.map (fun p => p.filename))⟩, calls⟩
      else
        ⟨⟨500, none⟩, calls⟩
    else
      ⟨⟨400, none⟩, []⟩

/-- Carriage-return/line-feed pair separating multipart lines. -/
def crlf : List Char := ['\r', '\n']

/-- Split a character list at the first occurrence of `delim`, returning the
characters before it and the characters after it.  Fuel-indexed structural
recursion; the fuel is instantiated to the input length plus one. -/
def breakOnCore (delim : List Char) : Nat → List Char → List Char →
    Option (List Char × List Char)
  | 0, _, _ => none
  | fuel + 1, acc, xs =>
    if delim.isPrefixOf xs then some (acc.reverse, xs.drop delim.length)
    else
      match xs with
      | [] => none
      | c :: rest => breakOnCore delim fuel (c :: acc) rest

/-- Split at the first occurrence of `delim`, if any. -/
def breakOn (delim xs : List Char) : Option (List Char × List Char) :=
  breakOnCore delim (xs.length + 1) [] xs

/-- Split a character list on every occurrence of `delim`.  Fuel-indexed
structural recursion; the result is never empty. -/
def splitOnCore (delim : List Char) : Nat → List Char → List Char →
    List (List Char)
  | 0, acc, xs => [acc.reverse ++ xs]
  | fuel + 1, acc, xs =>
    match xs with
    | [] => [acc.reverse]
    | c :: rest =>
      if delim.isPrefixOf (c :: rest) then
        acc.reverse :: splitOnCore delim fuel [] ((c :: rest).drop delim.length)
      else
        splitOnCore delim fuel (c :: acc) rest

/-- Split a character list on every occurrence of `delim`. -/
def splitOnL (delim xs : List Char) : List (List Char) :=
  splitOnCore delim (xs.length + 1) [] xs

/-- Split a list into its leading elements and its last element. -/
def splitLast : List α → Option (List α × α)
  | [] => none
  | [x] => some ([], x)
  | x :: y :: rest =>
    match splitLast (y :: rest) with
    | some (init, last) => some (x :: init, last)
    | none => none

/-- Drop leading spaces of a header parameter piece. -/
def dropSpaces : List Char → List Char
  | ' ' :: rest => dropSpaces rest
  | xs => xs

/-- Drop a trailing CRLF (the line break preceding the next boundary). -/
def stripTrailingCrlf (xs : List Char) : List Char :=
  if crlf.isSuffixOf xs then xs.dropLast.dropLast else xs

/-- Extract the quoted value of `key="value"` from one trimmed
content-disposition parameter piece. -/
def paramValue (key piece : List Char) : Option (List Char) :=
  let pre := key ++ ['=', '"']
  if pre.isPrefixOf piece then
    match breakOn ['"'] (piece.drop pre.length) with
    | some (v, []) => some v
    | _ => none
  else none

/-- Find the first parameter piece carrying the given key, trimming leading
spaces of each piece. -/
def findParam (key : List Char) : List (List Char) → Option (List Char)
  | [] => none
  | p :: ps =>
    match paramValue key (dropSpaces p) with
    | some v => some v
    | none => findParam key ps

/-- ASCII-lowercase a character list (header names are case-insensitive). -/
def lowerList (xs : List Char) : List Char := xs.map Char.toLower

/-- The header key introducing a part's content-disposition line. -/
def dispositionKey : List Char := "content-disposition:".data

/-- Find the content-disposition header line among a part's decoded header
lines and return its parameter portion. -/
def findDispositionLine : List (List Char) → Option (List Char)
  | [] => none
  | l :: ls =>
    if dispositionKey.isPrefixOf (lowerList l) then
      some (l.drop dispositionKey.length)
    else findDispositionLine ls

/-- Modelled from the spec: decode one boundary-delimited segment into a Part
(the Pez dispenser's and `@hapi/content`'s decoding is not part of this
repository).  A segment is `CRLF`, the header lines, a blank line, then the
content followed by the CRLF preceding the next boundary.  The part's `name`
comes from the content-disposition header's `name` parameter; a missing
`filename` parameter yields the empty string (a field submitted without a
file).  Any header block that cannot be decoded this way is a
`MalformedMultipartError.invalidHeader` fault. -/
def parseSegment (seg : List Char) : Except MalformedMultipartError ContentDisposition :=
  if crlf.isPrefixOf seg then
    match breakOn (crlf ++ crlf) (seg.drop 2) with
    | none => .error .invalidHeader
    | some (headerBlock, rest) =>
      match findDispositionLine (splitOnL crlf headerBlock) with
      | none => .error .invalidHeader
      | some params =>
        let pieces := splitOnL [';'] params
        match findParam "name".data pieces with
        | none => .error .invalidHeader
        | some nm =>
          .ok ⟨⟨nm⟩, ⟨((findParam "filename".data pieces).getD [])⟩,
            stripTrailingCrlf rest⟩
  else .error .invalidHeader

/-- Decode every segment in order, failing on the first undecodable one. -/
def parseSegments : List (List Char) →
    Except MalformedMultipartError (List ContentDisposition)
  | [] => .ok []
  | s :: rest =>
    match parseSegment s with
    | .error e => .error e
    | .ok p =>
      match parseSegments rest with
      | .error e => .error e
      | .ok ps => .ok (p :: ps)

/-- Modelled from the spec: the boundary-splitting stage of the Part
Dispenser.  Split the body on the `--boundary` delimiter and return the
boundary-delimited segments strictly between the first delimiter and the
final `--boundary--` delimiter; fail with `incompletePayload` when the body
ends before a final delimiter is seen. -/
def extractSegments (b : String) (body : List Char) :
    Except MalformedMultipartError (List (List Char)) :=
  if b.data.isEmpty then .error .missingBoundary
  else
    match splitOnL ('-' :: '-' :: b.data) body with
    | [] => .error .incompletePayload
    | [_] => .error .incompletePayload
    | _ :: rest =>
      match splitLast rest with
      | none => .error .incompletePayload
      | some (mids, lastPiece) =>
        if ['-', '-'].isPrefixOf lastPiece then .ok mids
        else .error .incompletePayload

/-- Modelled from the spec: the Part Dispenser.  Given the boundary option of
the content-type header and the raw body, fail with `missingBoundary` when no
boundary was supplied, split the body on the boundary delimiter, and decode
every segment into a Part, in the order the segments appear in the body. -/
def dispense (boundary? : Option String) (body : List Char) :
    Except MalformedMultipartError (List ContentDisposition) :=
  match boundary? with
  | none => .error .missingBoundary
  | some b =>
    match extractSegments b body with
    | .error e => .error e
    | .ok mids => parseSegments mids

/-- An event of the Pez dispenser as observed by the handler's promise
executor: a `part` emission, an `error`, or the final `close`. -/
inductive DispenserEvent where
  | part (p : ContentDisposition)
  | error (e : MalformedMultipartError)
  | close
  deriving Repr, DecidableEq

/-- Modelled from the spec: the dispenser emits each Part in order as it is
parsed and then closes, or emits an error event on a parsing fault. -/
def dispenseEvents (boundary? : Option String) (body : List Char) :
    List DispenserEvent :=
  match dispense boundary? body with
  | .ok parts => parts.map DispenserEvent.part ++ [DispenserEvent.close]
  | .error e => [DispenserEvent.error e]

/-- The promise executor of the source handler: `onPart` pushes each emitted
part onto the accumulator, `onError` rejects with the error, `onClose`
resolves with the accumulated parts.  `none` models a promise that never
settles. -/
def collectLoop (acc : List ContentDisposition) :
    List DispenserEvent →
    Option (Except MalformedMultipartError (List ContentDisposition))
  | [] => none
  | DispenserEvent.part p :: rest => collectLoop (acc ++ [p]) rest
  | DispenserEvent.error e :: _ => some (.error e)
  | DispenserEvent.close :: _ => some (.ok acc)

/-- Await the collection promise over a dispenser event sequence. -/
def collectParts (events : List DispenserEvent) :
    Option (Except MalformedMultipartError (List ContentDisposition)) :=
  collectLoop [] events

/-- The parsed content-type header (`Content.type`): its mime and, for
multipart types, the boundary parameter. -/
structure ContentType where
  mime : String
  boundary : Option String
  deriving Repr, DecidableEq

/-- The route-level pipeline.  Modelled from the spec and the repository's
tests where the framework decides: hapi's `allow: 'multipart/form-data'`
route option answers any other mime with a 415 before the handler runs.  On
a multipart request the handler awaits the collection promise, whose settled
value equals the dispenser's result (`collectParts_dispenseEvents` below),
so the pipeline is stated with `dispense` directly. -/
def uploadPipeline (sink : ContentDisposition → Except String Unit)
    (ct : ContentType) (body : List Char) : PipelineOutcome :=
  if ct.mime == "multipart/form-data" then
    uploadHandler sink (dispense ct.boundary body)
  else ⟨⟨415, none⟩, []⟩

/-- A promise together with the logical time at which it settles. -/
structure TimedResult (α : Type) where
  time : Nat
  result : Except String α

/-- The time by which every promise of the list has settled. -/
def settleAllTime (ps : List (TimedResult α)) : Nat :=
  (ps.map (fun p => p.time)).foldr max 0

/-- Modelled from ECMAScript `Promise.all`, used by the source handler to
join the forwarding calls: when every promise fulfills, it fulfills with the
values in positional order once all have settled; when any promise rejects,
it rejects with the earliest-settling rejection's reason at that rejection's
time — without waiting for the remaining promises, which nevertheless keep
running to their own settlement (promises are not cancelled). -/
def promiseAll (ps : List (TimedResult α)) : TimedResult (List α) :=
  match ps.filter (fun p => !(exceptOk p.result)) with
  | [] => ⟨settleAllTime ps, .ok (ps.filterMap (fun p => p.result.toOption))⟩
  | r :: rs =>
    let firstRej := rs.foldl (fun a b => if b.time < a.time then b else a) r
    ⟨firstRej.time,
      .error (match firstRej.result with | .error e => e | .ok _ => "")⟩

/-! Concrete request data used by the witness and counterexample theorems. -/

/-- A well-formed two-part multipart body with boundary `B`: a `background`
part uploading `a.png` and a `profile` part uploading `b.jpg`. -/
def exBody : List Char :=
  ("--B\r\ncontent-disposition: form-data; name=\"background\"; filename=\"a.png\"\r\n\r\nhi\r\n--B\r\ncontent-disposition: form-data; name=\"profile\"; filename=\"b.jpg\"\r\n\r\nyo\r\n--B--").data

/-- The two parts the dispenser collects from `exBody`, in body order. -/
def exParts : List ContentDisposition :=
  [⟨"background", "a.png", ['h', 'i']⟩, ⟨"profile", "b.jpg", ['y', 'o']⟩]

/-- A multipart body containing only the `background` part. -/
def exBodySingle : List Char :=
  ("--B\r\ncontent-disposition: form-data; name=\"background\"; filename=\"a.png\"\r\n\r\nhi\r\n--B--").data

/-- A multipart body whose single part carries a disallowed `.txt` file. -/
def exBodyTxt : List Char :=
  ("--B\r\ncontent-disposition: form-data; name=\"background\"; filename=\"info.txt\"\r\n\r\nhi\r\n--B\r\ncontent-disposition: form-data; name=\"profile\"; filename=\"b.jpg\"\r\n\r\nyo\r\n--B--").data

/-- A multipart body that ends before any final `--B--` delimiter. -/
def exBodyNoFinal : List Char :=
  ("--B\r\ncontent-disposition: form-data; name=\"background\"; filename=\"a.png\"\r\n\r\nhi\r\n").data

/-- A multipart body whose part headers cannot be decoded. -/
def exBodyBadHeader : List Char :=
  ("--B\r\nbogus\r\n\r\nhi\r\n--B--").data

/-- The two boundary-delimited segments of `exBody`, in byte order. -/
def exSegs : List (List Char) :=
  [("\r\ncontent-disposition: form-data; name=\"background\"; filename=\"a.png\"\r\n\r\nhi\r\n").data,
   ("\r\ncontent-disposition: form-data; name=\"profile\"; filename=\"b.jpg\"\r\n\r\nyo\r\n").data]

/-- The parsed content-type of a well-formed request: multipart with
boundary `B`. -/
def exCT : ContentType := ⟨"multipart/form-data", some "B"⟩

/-- A downstream sink that acknowledges every forwarded part. -/
def okSink : ContentDisposition → Except String Unit := fun _ => .ok ()

/-- A downstream sink that is unreachable for the `profile` part only. -/
def failProfileSink : ContentDisposition → Except String Unit :=
  fun p => if p.name == "profile" then .error "connection refused" else .ok ()

/-- Two concurrent timed forwarding promises: the first rejects at time 5,
the second fulfills later, at time 9. -/
def exForwardTimed : List (TimedResult Unit) :=
  [⟨5, .error "connection refused"⟩, ⟨9, .ok ()⟩]

/-! Supporting lemmas. -/

/-- The validation gate, characterised: exactly two parts, each with an
accepted filename and a field name among the two allowed literals. -/
theorem partsValid_iff (parts : List ContentDisposition) :
    partsValid parts = true ↔
      parts.length = 2 ∧ ∀ p ∈ parts,
        itemFilenameOk p.filename = true ∧
          (p.name = "background" ∨ p.name = "profile") := by
  simp [partsValid, List.all_eq_true, partItemOk, itemNameOk]

/-- A validation failure makes the handler answer 400 without forwarding. -/
theorem uploadHandler_invalid (sink : ContentDisposition → Except String Unit)
    (parts : List ContentDisposition) (h : partsValid parts = false) :
    uploadHandler sink (.ok parts) = ⟨⟨400, none⟩, []⟩ := by
  simp [uploadHandler, h]

/-- Segment decoding succeeds exactly segmentwise: the decoded part list has
one part per segment, and the part at each position is decoded from the
segment at the same position. -/
theorem parseSegments_ok :
    ∀ {segs : List (List Char)} {ps : List ContentDisposition},
      parseSegments segs = .ok ps →
      ps.length = segs.length ∧
        ∀ (i : Nat) (hi : i < segs.length) (hp : i < ps.length),
          parseSegment (segs.get ⟨i, hi⟩) = .ok (ps.get ⟨i, hp⟩) := by
  intro segs
  induction segs with
  | nil =>
    intro ps h
    simp only [parseSegments] at h
    injection h with h
    subst h
    exact ⟨rfl, fun i hi => absurd hi (by simp)⟩
  | cons s rest ih =>
    intro ps h
    simp only [parseSegments] at h
    cases hs : parseSegment s with
    | error e => rw [hs] at h; cases h
    | ok p =>
      rw [hs] at h
      cases hrest : parseSegments rest with
      | error e => rw [hrest] at h; cases h
      | ok ps' =>
        rw [hrest] at h
        injection h with h
        subst h
        obtain ⟨hlen, hget⟩ := ih hrest
        refine ⟨by simp [hlen], ?_⟩
        intro i hi hp
        cases i with
        | zero => simpa using hs
        | succ j =>
          simpa using hget j (by simpa using hi) (by simpa using hp)

/-- A successful dispense is the segmentwise decoding of the extracted
boundary-delimited segments. -/
theorem dispense_ok_segments {b : String} {body : List Char}
    {parts : List ContentDisposition}
    (h : dispense (some b) body = .ok parts) :
    ∃ segs, extractSegments b body = .ok segs ∧ parseSegments segs = .ok parts := by
  simp only [dispense] at h
  cases hseg : extractSegments b body with
  | error e => rw [hseg] at h; cases h
  | ok segs => rw [hseg] at h; exact ⟨segs, rfl, h⟩

/-- The source handler's `onPart` accumulator: pushing each emitted part and
resolving on `close` yields the accumulated prefix followed by the emitted
parts, in emission order. -/
theorem collectLoop_parts_close (ps : List ContentDisposition) :
    ∀ acc, collectLoop acc (ps.map DispenserEvent.part ++ [DispenserEvent.close]) =
      some (.ok (acc ++ ps)) := by
  induction ps with
  | nil => intro acc; simp [collectLoop]
  | cons p ps ih =>
    intro acc
    simp only [List.map, List.cons_append, collectLoop, List.append_eq]
    rw [ih]
    simp

/-- The collection promise of the source handler settles to exactly the
dispenser's result: the parts in emission order on `close`, the error on
`error`. -/
theorem collectParts_dispenseEvents (boundary? : Option String) (body : List Char) :
    collectParts (dispenseEvents boundary? body) = some (dispense boundary? body) := by
  unfold collectParts dispenseEvents
  cases h : dispense boundary? body with
  | ok parts => simpa using collectLoop_parts_close parts []
  | error e => simp [collectLoop]

/-- The running minimum-settle-time fold selects one of the promises. -/
theorem foldlMinTime_mem (r : TimedResult α) (rs : List (TimedResult α)) :
    rs.foldl (fun a b => if b.time < a.time then b else a) r ∈ r :: rs := by
  induction rs generalizing r with
  | nil => simp
  | cons s rs ih =>
    simp only [List.foldl_cons]
    have h := ih (if s.time < r.time then s else r)
    by_cases hc : s.time < r.time
    · rw [if_pos hc] at h ⊢
      rcases List.mem_cons.1 h with h' | h'
      · rw [h']; exact List.mem_cons_of_mem _ (List.mem_cons_self _ _)
      · exact List.mem_cons_of_mem _ (List.mem_cons_of_mem _ h')
    · rw [if_neg hc] at h ⊢
      rcases List.mem_cons.1 h with h' | h'
      · rw [h']; exact List.mem_cons_self _ _
      · exact List.mem_cons_of_mem _ (List.mem_cons_of_mem _ h')

/-- The running minimum-settle-time fold settles no later than any of the
promises it ranges over. -/
theorem foldlMinTime_le (r : TimedResult α) (rs : List (TimedResult α)) :
    ∀ x ∈ r :: rs,
      (rs.foldl (fun a b => if b.time < a.time then b else a) r).time ≤ x.time := by
  induction rs generalizing r with
  | nil =>
    intro x hx
    rcases List.mem_cons.1 hx with rfl | hx
    · exact Nat.le_refl _
    · cases hx
  | cons s rs ih =>
    intro x hx
    simp only [List.foldl_cons]
    have hr' : (if s.time < r.time then s else r).time ≤ r.time := by
      by_cases hc : s.time < r.time
      · rw [if_pos hc]; omega
      · rw [if_neg hc]
    have hs' : (if s.time < r.time then s else r).time ≤ s.time := by
      by_cases hc : s.time < r.time
      · rw [if_pos hc]
      · rw [if_neg hc]; omega
    have hhead := ih (if s.time < r.time then s else r) _ (List.mem_cons_self _ _)
    rcases List.mem_cons.1 hx with rfl | hx'
    · exact Nat.le_trans hhead hr'
    · rcases List.mem_cons.1 hx' with rfl | hx''
      · exact Nat.le_trans hhead hs'
      · exact ih _ _ (List.mem_cons_of_mem _ hx'')

/-- `Promise.all` with a rejected member rejects, and it settles no later
than that rejection. -/
theorem promiseAll_reject {ps : List (TimedResult α)} {r : TimedResult α}
    (hr : r ∈ ps) (hfail : exceptOk r.result = false) :
    exceptOk (promiseAll ps).result = false ∧ (promiseAll ps).time ≤ r.time := by
  have hrf : r ∈ ps.filter (fun p => !(exceptOk p.result)) :=
    List.mem_filter.2 ⟨hr, by simp [hfail]⟩
  cases hf : ps.filter (fun p => !(exceptOk p.result)) with
  | nil => rw [hf] at hrf; cases hrf
  | cons a as =>
    rw [hf] at hrf
    simp only [promiseAll, hf]
    exact ⟨rfl, foldlMinTime_le a as r hrf⟩

/-- All-fulfilled promise values are recovered in positional order. -/
theorem filterMap_toOption_of_all_ok {ps : List (TimedResult α)} {vs : List α}
    (h : ps.map (fun p => p.result) = vs.map Except.ok) :
    ps.filterMap (fun p => p.result.toOption) = vs := by
  induction ps generalizing vs with
  | nil => cases vs with | nil => rfl | cons v vs => cases h
  | cons p ps ih =>
    cases vs with
    | nil => cases h
    | cons v vs =>
      simp only [List.map] at h
      injection h with h1 h2
      simp only [List.filterMap_cons, h1, Except.toOption]
      exact congrArg (List.cons v) (ih h2)

/-- `Promise.all` over promises that all fulfill fulfills with the values in
positional order. -/
theorem promiseAll_ok {ps : List (TimedResult α)} {vs : List α}
    (h : ps.map (fun p => p.result) = vs.map Except.ok) :
    (promiseAll ps).result = .ok vs := by
  have hfil : ps.filter (fun p => !(exceptOk p.result)) = [] := by
    rw [List.filter_eq_nil_iff]
    intro p hp
    have hmem : p.result ∈ vs.map Except.ok := h ▸ List.mem_map_of_mem _ hp
    obtain ⟨v, _, hv⟩ := List.mem_map.1 hmem
    simp [← hv, exceptOk]
  simp only [promiseAll, hfil]
  simp [filterMap_toOption_of_all_ok h]

/-! The claims. -/

/-- C1 counterexample: the claim says the Validation Gate accepts only when
the two parts are bound to the two fixed field names with *both* names
present, but the gate accepts a sequence of two parts both bound to
`background`, with no `profile` part present at all. -/
theorem claim_C1_counterexample :
    partsValid
      [⟨"background", "a.png", []⟩, ⟨"background", "b.jpg", []⟩] = true ∧
    ([⟨"background", "a.png", []⟩, ⟨"background", "b.jpg", []⟩] :
      List ContentDisposition).any (fun p => p.name == "profile") = false := by
  decide

/-- C1 (amended): the Validation Gate accepts a collected sequence exactly
when it holds exactly two Parts, each bound to one of the two fixed field
names `background` or `profile` and each with an accepted filename; the two
names need not both be present (two parts sharing one of the names are
accepted).  Any other collected sequence fails validation and is answered
with a 400 client error and no forwarding. -/
theorem claim_C1_amended :
    (∀ parts : List ContentDisposition,
      partsValid parts = true ↔
        parts.length = 2 ∧ ∀ p ∈ parts,
          itemFilenameOk p.filename = true ∧
            (p.name = "background" ∨ p.name = "profile")) ∧
    (∀ (sink : ContentDisposition → Except String Unit) parts,
      partsValid parts = false →
      uploadHandler sink (.ok parts) = ⟨⟨400, none⟩, []⟩) :=
  ⟨partsValid_iff, uploadHandler_invalid⟩

/-- C1 witness: the gate accepts the well-formed two-part request, and a
single-part sequence is answered 400 with no forwarding calls. -/
theorem claim_C1_witness :
    partsValid exParts = true ∧
    uploadHandler okSink (.ok [⟨"background", "a.png", ['h', 'i']⟩]) =
      ⟨⟨400, none⟩, []⟩ :=
  ⟨(claim_C1_amended.1 exParts).2 ⟨by decide, by decide⟩,
   claim_C1_amended.2 okSink _ (by decide)⟩

/-- C2 counterexample: the claim says extension matching is case-insensitive,
with upper-case variants accepted; but `photo.PNG` — whose ASCII lowercasing
is the accepted `photo.png` — is rejected by the schema: the regex
`\.(gif|jpe?g|png)$` carries no `i` flag. -/
theorem claim_C2_counterexample :
    lowerList ("photo.PNG".data) = ("photo.png".data) ∧
    itemFilenameOk "photo.png" = true ∧
    itemFilenameOk "photo.PNG" = false := by
  decide

/-- C2 (amended): a part's filename is accepted iff it is non-empty and ends,
case-sensitively, with one of the literal extensions `.gif`, `.jpg`, `.jpeg`,
`.png`; any part whose filename is rejected makes the whole validation fail
(hence the 400 response of `claim_C1_amended`). -/
theorem claim_C2_amended :
    (∀ s : String, itemFilenameOk s = true ↔
      (s ≠ "" ∧ ∃ ext ∈ ([".gif", ".jpg", ".jpeg", ".png"] : List String),
        ∃ t, t ++ ext.data = s.data)) ∧
    (∀ parts p, p ∈ parts → itemFilenameOk p.filename = false →
      partsValid parts = false) := by
  constructor
  · intro s
    simp [itemFilenameOk, extensionOk, List.any_eq_true, bne_iff_ne,
      List.isSuffixOf_iff_suffix, List.IsSuffix]
  · intro parts p hp hbad
    cases hv : partsValid parts
    · rfl
    · obtain ⟨-, hall⟩ := (partsValid_iff parts).1 hv
      rw [(hall p hp).1] at hbad
      cases hbad

/-- C2 witness: `profile.png` is accepted, and a part carrying `info.txt`
fails the whole validation. -/
theorem claim_C2_witness :
    itemFilenameOk "profile.png" = true ∧
    partsValid [⟨"background", "info.txt", []⟩, ⟨"profile", "b.jpg", []⟩] = false :=
  ⟨(claim_C2_amended.1 "profile.png").2
      ⟨by decide, ".png", by decide, "profile".data, by decide⟩,
   claim_C2_amended.2 _ ⟨"background", "info.txt", []⟩ (by decide) (by decide)⟩

/-- C3: every multipart request whose collected Parts fail validation is
answered with a 400 client error and issues zero downstream forwarding
calls: validation failure strictly precedes and prevents all forwarding. -/
theorem claim_C3 (sink : ContentDisposition → Except String Unit)
    (ct : ContentType) (body : List Char) (parts : List ContentDisposition)
    (hmime : ct.mime = "multipart/form-data")
    (hcollect : dispense ct.boundary body = .ok parts)
    (hinvalid : partsValid parts = false) :
    uploadPipeline sink ct body = ⟨⟨400, none⟩, []⟩ := by
  simp [uploadPipeline, hmime, hcollect, uploadHandler, hinvalid]

/-- C3 witness: the body carrying only the `background` part is answered 400
with no forwarding calls. -/
theorem claim_C3_witness :
    uploadPipeline okSink exCT exBodySingle = ⟨⟨400, none⟩, []⟩ :=
  claim_C3 okSink exCT exBodySingle [⟨"background", "a.png", ['h', 'i']⟩]
    rfl (by decide) (by decide)

/-- C7: every request whose content-type is not multipart form data is
answered 415 and issues zero downstream forwarding calls (hapi's
`allow: 'multipart/form-data'` route option, modelled from the spec and
asserted by the repository's tests). -/
theorem claim_C7 (sink : ContentDisposition → Except String Unit)
    (ct : ContentType) (body : List Char)
    (hmime : ct.mime ≠ "multipart/form-data") :
    uploadPipeline sink ct body = ⟨⟨415, none⟩, []⟩ := by
  have hb : (ct.mime == "multipart/form-data") = false :=
    beq_eq_false_iff_ne.2 hmime
  simp [uploadPipeline, hb]

/-- C7 witness: a JSON request is answered 415 with no forwarding calls. -/
theorem claim_C7_witness :
    uploadPipeline okSink ⟨"application/json", none⟩ [] = ⟨⟨415, none⟩, []⟩ :=
  claim_C7 okSink ⟨"application/json", none⟩ [] (by decide)

/-- C4: a multipart body collecting exactly two correctly named and
correctly extensioned parts yields exactly two downstream forwarding
calls — one per part, each a POST to the fixed `localhost:3001` sink with
the percent-encoded filename in the path — and a 201 response whose
`uploaded` list carries both original filenames. -/
theorem claim_C4 (sink : ContentDisposition → Except String Unit)
    (ct : ContentType) (body : List Char) (p₀ p₁ : ContentDisposition)
    (hmime : ct.mime = "multipart/form-data")
    (hcollect : dispense ct.boundary body = .ok [p₀, p₁])
    (hvalid : partsValid [p₀, p₁] = true)
    (hs₀ : sink p₀ = .ok ()) (hs₁ : sink p₁ = .ok ()) :
    uploadPipeline sink ct body =
      ⟨⟨201, some [p₀.filename, p₁.filename]⟩,
        [⟨"POST", "http://localhost:3001/files/" ++ encodeURIComponent p₀.filename⟩,
         ⟨"POST", "http://localhost:3001/files/" ++ encodeURIComponent p₁.filename⟩]⟩ := by
  simp [uploadPipeline, hmime, hcollect, uploadHandler, hvalid, hs₀, hs₁,
    exceptOk, forwardCall]

set_option maxRecDepth 400000 in
/-- C4 witness: the well-formed two-part request is answered 201 listing both
filenames, with the two POST forwarding calls to the sink. -/
theorem claim_C4_witness :
    uploadPipeline okSink exCT exBody =
      ⟨⟨201, some ["a.png", "b.jpg"]⟩,
        [⟨"POST", "http://localhost:3001/files/a.png"⟩,
         ⟨"POST", "http://localhost:3001/files/b.jpg"⟩]⟩ :=
  (claim_C4 okSink exCT exBody
    ⟨"background", "a.png", ['h', 'i']⟩ ⟨"profile", "b.jpg", ['y', 'o']⟩
    rfl (by decide) (by decide) rfl rfl).trans (by decide)

/-- C5 counterexample: with two concurrent forwarding promises — one
rejecting at time 5, the other settling only at time 9 — the `Promise.all`
join used by the handler surfaces the rejection at time 5, while the other
call is still pending (all calls have settled only at time 9).  This refutes
the claim that no forwarding error is surfaced while another forwarding call
is still pending. -/
theorem claim_C5_counterexample :
    exceptOk (promiseAll exForwardTimed).result = false ∧
    (promiseAll exForwardTimed).time = 5 ∧
    settleAllTime exForwardTimed = 9 := by
  decide

/-- C5 (amended): a failing forwarding call does not cancel the others — the
handler issues one forwarding call per validated part regardless of the
sinks' outcomes — but the `Promise.all` join does not wait for the remaining
calls to settle before surfacing a forwarding error: whenever some call
rejects, the join rejects, and it settles no later than that rejection,
possibly while other calls are still pending. -/
theorem claim_C5_amended :
    (∀ (sink : ContentDisposition → Except String Unit) (ct : ContentType)
        (body : List Char) (parts : List ContentDisposition),
      ct.mime = "multipart/form-data" →
      dispense ct.boundary body = .ok parts →
      partsValid parts = true →
      (uploadPipeline sink ct body).calls =
        parts.map (fun p => forwardCall p.filename)) ∧
    (∀ (ps : List (TimedResult Unit)) (r : TimedResult Unit), r ∈ ps →
      exceptOk r.result = false →
      exceptOk (promiseAll ps).result = false ∧ (promiseAll ps).time ≤ r.time) := by
  constructor
  · intro sink ct body parts hmime hcollect hvalid
    cases hall : parts.all (fun p => exceptOk (sink p)) <;>
      simp [uploadPipeline, hmime, hcollect, uploadHandler, hvalid, hall]
  · intro ps r hr hfail
    exact promiseAll_reject hr hfail

set_option maxRecDepth 400000 in
/-- C5 witness: with the sink failing on the `profile` part, both forwarding
calls are still issued; and the join over the concrete timed promises rejects
no later than time 5. -/
theorem claim_C5_witness :
    (uploadPipeline failProfileSink exCT exBody).calls =
      exParts.map (fun p => forwardCall p.filename) ∧
    (exceptOk (promiseAll exForwardTimed).result = false ∧
      (promiseAll exForwardTimed).time ≤ 5) :=
  ⟨claim_C5_amended.1 failProfileSink exCT exBody exParts rfl (by decide) (by decide),
   claim_C5_amended.2 exForwardTimed ⟨5, .error "connection refused"⟩
     (by simp [exForwardTimed]) rfl⟩

/-- C6: when validation passed but at least one downstream forwarding call
fails, the whole request is treated as failed: both forwarding calls are
still issued, yet the response is the 500 server failure carrying no
`uploaded` list — never a 201 and never a partial list of successes. -/
theorem claim_C6 (sink : ContentDisposition → Except String Unit)
    (ct : ContentType) (body : List Char) (parts : List ContentDisposition)
    (hmime : ct.mime = "multipart/form-data")
    (hcollect : dispense ct.boundary body = .ok parts)
    (hvalid : partsValid parts = true)
    (hfail : ∃ p ∈ parts, exceptOk (sink p) = false) :
    (uploadPipeline sink ct body).response = ⟨500, none⟩ ∧
    (uploadPipeline sink ct body).calls =
      parts.map (fun p => forwardCall p.filename) := by
  have hall : parts.all (fun p => exceptOk (sink p)) = false := by
    obtain ⟨p, hp, hfp⟩ := hfail
    cases h : parts.all (fun p => exceptOk (sink p))
    · rfl
    · have htrue := List.all_eq_true.1 h p hp
      rw [hfp] at htrue
      cases htrue
  simp [uploadPipeline, hmime, hcollect, uploadHandler, hvalid, hall]

set_option maxRecDepth 400000 in
/-- C6 witness: with the sink unreachable for the `profile` part, the
well-formed request is answered 500 with no uploaded list, and both calls
were issued. -/
theorem claim_C6_witness :
    (uploadPipeline failProfileSink exCT exBody).response = ⟨500, none⟩ ∧
    (uploadPipeline failProfileSink exCT exBody).calls =
      exParts.map (fun p => forwardCall p.filename) :=
  claim_C6 failProfileSink exCT exBody exParts rfl (by decide) (by decide)
    ⟨⟨"profile", "b.jpg", ['y', 'o']⟩, by decide, rfl⟩

set_option maxRecDepth 400000 in
/-- C8: malformed multipart bodies — no boundary delimiter supplied, a body
terminating before a final boundary, or part header lines that cannot be
decoded — make collection fail with the corresponding
`MalformedMultipartError`, and every collection error is answered 400 with
zero downstream forwarding calls. -/
theorem claim_C8 :
    (∀ body, dispense none body = .error .missingBoundary) ∧
    dispense (some "B") exBodyNoFinal = .error .incompletePayload ∧
    dispense (some "B") exBodyBadHeader = .error .invalidHeader ∧
    (∀ (sink : ContentDisposition → Except String Unit) (ct : ContentType)
        (body : List Char) (e : MalformedMultipartError),
      ct.mime = "multipart/form-data" →
      dispense ct.boundary body = .error e →
      uploadPipeline sink ct body = ⟨⟨400, none⟩, []⟩) := by
  refine ⟨fun body => rfl, by decide, by decide, ?_⟩
  intro sink ct body e hmime hcollect
  simp [uploadPipeline, hmime, hcollect, uploadHandler]

set_option maxRecDepth 400000 in
/-- C8 witness: a missing boundary errors on the well-formed body too, and
the undecodable-header body is answered 400 with no forwarding calls. -/
theorem claim_C8_witness :
    dispense none exBody = .error .missingBoundary ∧
    uploadPipeline okSink ⟨"multipart/form-data", some "B"⟩ exBodyBadHeader =
      ⟨⟨400, none⟩, []⟩ :=
  ⟨claim_C8.1 exBody,
   claim_C8.2.2.2 okSink ⟨"multipart/form-data", some "B"⟩ exBodyBadHeader
     .invalidHeader rfl (by decide)⟩

/-- C9: the Part sequence the source handler's collection promise settles
with matches body byte order: it has one Part per boundary-delimited segment
of the body, and the Part at every position is decoded from the segment at
the same position. -/
theorem claim_C9 (b : String) (body : List Char)
    (parts : List ContentDisposition) (segs : List (List Char))
    (hsegs : extractSegments b body = .ok segs)
    (hcollect : collectParts (dispenseEvents (some b) body) = some (.ok parts)) :
    parts.length = segs.length ∧
    ∀ (i : Nat) (hi : i < segs.length) (hp : i < parts.length),
      parseSegment (segs.get ⟨i, hi⟩) = .ok (parts.get ⟨i, hp⟩) := by
  rw [collectParts_dispenseEvents] at hcollect
  injection hcollect with hcollect
  have hps : parseSegments segs = .ok parts := by
    obtain ⟨segs', hsegs', hps'⟩ := dispense_ok_segments hcollect
    rw [hsegs] at hsegs'
    injection hsegs' with heq
    rw [heq]
    exact hps'
  exact parseSegments_ok hps

set_option maxRecDepth 1000000 in
/-- C9 witness: on the two-part body, the collected parts are in segment
order: two parts for the two segments, the first decoding the first
segment. -/
theorem claim_C9_witness :
    exParts.length = exSegs.length ∧
    parseSegment (exSegs.get ⟨0, by decide⟩) = .ok (exParts.get ⟨0, by decide⟩) := by
  have h := claim_C9 "B" exBody exParts exSegs (by decide) (by decide)
  exact ⟨h.1, h.2 0 (by decide) (by decide)⟩

/-- C10: the `uploaded` list of a successful response carries the filenames
in collected-part order — the handler maps over the parts in order — and the
`Promise.all` join preserves positional order whenever every forwarding call
fulfills. -/
theorem claim_C10 (sink : ContentDisposition → Except String Unit)
    (ct : ContentType) (body : List Char) (parts : List ContentDisposition)
    (hmime : ct.mime = "multipart/form-data")
    (hcollect : dispense ct.boundary body = .ok parts)
    (hvalid : partsValid parts = true)
    (hsink : ∀ p ∈ parts, sink p = .ok ()) :
    (uploadPipeline sink ct body).response.uploaded =
      some (parts.map (fun p => p.filename)) ∧
    (∀ (ps : List (TimedResult String)) (vs : List String),
      ps.map (fun p => p.result) = vs.map Except.ok →
      (promiseAll ps).result = .ok vs) := by
  refine ⟨?_, fun ps vs h => promiseAll_ok h⟩
  have hall : parts.all (fun p => exceptOk (sink p)) = true := by
    rw [List.all_eq_true]
    intro p hp
    rw [hsink p hp]
    rfl
  simp [uploadPipeline, hmime, hcollect, uploadHandler, hvalid, hall]

set_option maxRecDepth 400000 in
/-- C10 witness: the well-formed request's `uploaded` list is exactly the
filenames in body order, and the join of two fulfilled timed promises
preserves their order. -/
theorem claim_C10_witness :
    (uploadPipeline okSink exCT exBody).response.uploaded =
      some ["a.png", "b.jpg"] ∧
    (promiseAll [⟨3, .ok "a.png"⟩, ⟨7, .ok "b.jpg"⟩]).result =
      .ok ["a.png", "b.jpg"] := by
  have h := claim_C10 okSink exCT exBody exParts rfl (by decide) (by decide)
    (fun p _ => rfl)
  exact ⟨h.1.trans (by decide), h.2 _ _ (by decide)⟩

end UploadStream
